import Mathlib

/-!
# Verification of the agentic-research orchestration core

A shallow embedding, in Lean 4, of the pure orchestration logic of the
agentic-research repository (Python), together with proofs of the testable
properties stated in its specification.

Conventions used throughout the embedding:

* Python `dict` payloads with a known key set become Lean structures; a key
  that may be absent becomes an `Option` field (`none` = key absent), and
  `d.get(k, default)` becomes `field.getD default`.
* External services (the language-model backend, the Tavily search provider,
  the HTTP fetch / HTML extraction stack, the text splitter, the RAG store,
  `datetime.now()`, Python `str()` on heterogeneous payloads) are modelled as
  explicit oracle parameters; everything written in the repository itself is
  translated definitionally.
* A call that may raise is modelled with `Except String`; the `.error` branch
  carries `str(e)`.
* `collections.deque(maxlen=c)` becomes a Lean list with `dequeAppend`.
* The Python call `list.sort(key=k, reverse=True)` — a *stable* descending
  sort — is modelled by `stableSortDesc`.

The file is organised as definitions first (sections `## D…`), then the
lemmas and the claim theorems (sections `## T…`).
-/

namespace AgenticResearch

/-! ## D1. Generic helpers: Python primitives -/

/-- Python string slicing `s[:n]` (by code point). -/
def pyTake (s : String) (n : Nat) : String :=
  String.mk (s.data.take n)

/-- Python `str.lower()` (ASCII case folding, character by character). -/
def pyToLower (s : String) : String :=
  String.mk (s.data.map Char.toLower)

/-- Worker for `pySplitWhitespace`: `acc` is the reversed current word. -/
def pySplitWhitespaceAux : List Char → List Char → List String
  | [], acc => if acc.isEmpty then [] else [String.mk acc.reverse]
  | c :: cs, acc =>
      if c.isWhitespace then
        (if acc.isEmpty then [] else [String.mk acc.reverse])
          ++ pySplitWhitespaceAux cs []
      else pySplitWhitespaceAux cs (c :: acc)

/-- Python `str.split()` with no argument: split on runs of whitespace,
producing no empty pieces. -/
def pySplitWhitespace (s : String) : List String :=
  pySplitWhitespaceAux s.data []

/-- Python `list[-n:]`: the last `n` elements (all of them when `n` exceeds
the length). -/
def pyTakeLast (l : List α) (n : Nat) : List α :=
  l.drop (l.length - n)

/-- One `append` on a `collections.deque(maxlen := maxlen)`: the new element
goes on the right, and elements are discarded from the left so that at most
`maxlen` remain.  (For a deque holding at most `maxlen` elements this drops
at most one element, the oldest; `maxlen = 0` keeps nothing, as in Python.) -/
def dequeAppend (maxlen : Nat) (d : List α) (x : α) : List α :=
  (d ++ [x]).drop ((d ++ [x]).length - maxlen)

/-! ## D2. The Python stable sort, descending by a key

`list.sort(key := k, reverse := True)` in CPython is a stable sort: elements
with equal keys keep their original relative order, and `reverse=True` does
not disturb that.  `stableSortDesc` is an insertion sort with exactly this
behaviour: an element is inserted in front of the first element whose key is
`≤` its own, so among equal keys the earlier element stays first. -/

variable {β : Type} [LinearOrder β]

/-- Insert `a` into `l`, in front of the first element whose key is `≤ key a`
(stable, descending). -/
def stableInsertDesc (key : α → β) (a : α) : List α → List α
  | [] => [a]
  | x :: l => if key x ≤ key a then a :: x :: l else x :: stableInsertDesc key a l

/-- Stable sort, descending by `key`: the model of the Python call
`sort(key := key, reverse := True)`. -/
def stableSortDesc (key : α → β) : List α → List α
  | [] => []
  | a :: l => stableInsertDesc key a (stableSortDesc key l)

/-- The "first element attaining the maximal key" function: the spec-level
description («highest priority, first-inserted among ties») of the head of a
stable descending sort. -/
def firstMaxBy (key : α → β) : List α → Option α
  | [] => none
  | a :: l =>
      match firstMaxBy key l with
      | none => some a
      | some b => if key a < key b then some b else some a

/-! ## D3. Memory store — `src/memory/working.py`

`WorkingMemory` holds `MemoryItem` dicts in a `deque(maxlen = max_size)`
(default 5).  The item field `content` is an arbitrary Python value, modelled by
a type parameter `χ`; `datetime.now().isoformat()` is the explicit `now`
argument; `metadata` dicts are association lists. -/

structure MemoryItem (χ : Type) where
  type : String
  content : χ
  metadata : List (String × String)
  timestamp : String
deriving DecidableEq

structure WorkingMemory (χ : Type) where
  max_size : Nat := 5
  memory : List (MemoryItem χ) := []
deriving DecidableEq

/-- `WorkingMemory.add`: build the memory-item dict and append it to the
ring buffer. -/
def WorkingMemory.add (wm : WorkingMemory χ) (item_type : String) (content : χ)
    (metadata : Option (List (String × String))) (now : String) :
    WorkingMemory χ :=
  { wm with
    memory := dequeAppend wm.max_size wm.memory
      { type := item_type, content := content, metadata := metadata.getD [],
        timestamp := now } }

/-- `WorkingMemory.get_recent`: all items, or the last `n`. -/
def WorkingMemory.get_recent (wm : WorkingMemory χ) (n : Option Nat) :
    List (MemoryItem χ) :=
  match n with
  | none => wm.memory
  | some n => pyTakeLast wm.memory n

/-- `WorkingMemory.get_context_summary`; `strC` models Python `str()` on the
heterogeneous `content` payload. -/
def WorkingMemory.get_context_summary (strC : χ → String)
    (wm : WorkingMemory χ) : String :=
  if wm.memory.isEmpty then "No items in working memory."
  else
    String.intercalate "\n" ("Working Memory Context:" ::
      wm.memory.map (fun item =>
        "- [" ++ item.type ++ "] " ++ pyTake (strC item.content) 100))

/-! ## D4. Memory store — `src/memory/short_term.py`

`ShortTermMemory` holds session dicts in a `deque(maxlen = max_size)`
(default 10).  The `plan` payload and the result entries are arbitrary
Python values, modelled by type parameters `π` and `ρ`. -/

structure SessionRecord (π ρ : Type) where
  query : String
  plan : π
  results : List ρ
  report : String
  metadata : List (String × String)
  timestamp : String
deriving DecidableEq

structure ShortTermMemory (π ρ : Type) where
  max_size : Nat := 10
  sessions : List (SessionRecord π ρ) := []
deriving DecidableEq

/-- `ShortTermMemory.save_session`: build the session dict and append it to
the ring buffer. -/
def ShortTermMemory.save_session (stm : ShortTermMemory π ρ) (query : String)
    (plan : π) (results : List ρ) (report : String)
    (metadata : Option (List (String × String))) (now : String) :
    ShortTermMemory π ρ :=
  { stm with
    sessions := dequeAppend stm.max_size stm.sessions
      { query := query, plan := plan, results := results, report := report,
        metadata := metadata.getD [], timestamp := now } }

/-- `ShortTermMemory.get_recent_sessions`: all sessions, or the last `n`. -/
def ShortTermMemory.get_recent_sessions (stm : ShortTermMemory π ρ)
    (n : Option Nat) : List (SessionRecord π ρ) :=
  match n with
  | none => stm.sessions
  | some n => pyTakeLast stm.sessions n

/-- `set(s.lower().split())`: the bag of words of a query. -/
def wordSet (s : String) : Finset String :=
  (pySplitWhitespace (pyToLower s)).toFinset

/-- The Jaccard similarity computed inside `find_similar_queries`:
`|A ∩ B| / |A ∪ B|`, and `0` when the union is empty. -/
def jaccardSimilarity (a b : Finset String) : ℚ :=
  let intersection := (a ∩ b).card
  let union := (a ∪ b).card
  if 0 < union then (intersection : ℚ) / (union : ℚ) else 0

/-- The score `find_similar_queries` assigns a stored session for a query. -/
def sessionSimilarity (query : String) (s : SessionRecord π ρ) : ℚ :=
  jaccardSimilarity (wordSet query) (wordSet s.query)

/-- `ShortTermMemory.find_similar_queries`: score every stored session,
stable-sort the `(score, session)` pairs descending by score
(`sort(key = fst, reverse = True)`), return the first `top_k` sessions. -/
def ShortTermMemory.find_similar_queries (stm : ShortTermMemory π ρ)
    (query : String) (top_k : Nat) : List (SessionRecord π ρ) :=
  let scored_sessions := stm.sessions.map (fun s => (sessionSimilarity query s, s))
  ((stableSortDesc Prod.fst scored_sessions).take top_k).map Prod.snd

/-- `ShortTermMemory.get_summary`. -/
def ShortTermMemory.get_summary (stm : ShortTermMemory π ρ) : String :=
  if stm.sessions.isEmpty then "No sessions in short-term memory."
  else
    String.intercalate "\n"
      (("Short-term Memory (" ++ toString stm.sessions.length ++ " sessions):") ::
        stm.sessions.enum.map (fun p =>
          toString (p.1 + 1) ++ ". " ++ pyTake p.2.query 80 ++ "... ("
            ++ p.2.timestamp ++ ")"))

/-! ## D5. Task manager — `src/agents/task_manager.py`

A task dict.  `create_tasks` / `update_tasks` are pure language-model calls
(they appear as oracles in the workflow); the pure logic is `get_next_task`
and `mark_completed`.  `urls` and `results` are read with
`task.get(key, [])`, so an absent key and an empty list coincide and both
are modelled as `[]`. -/

structure SearchItem where
  title : Option String
  url : Option String
  content : Option String
  score : Option ℚ
deriving DecidableEq

/-- One entry of the `results` list handed to an `analyze` task: a dict that
may carry a `content` string or a nested `results` list. -/
structure AnalyzeInput where
  content : Option String
  results : Option (List SearchItem)
deriving DecidableEq

structure Task where
  id : Option String
  description : Option String
  type : Option String
  priority : Option Int
  status : Option String
  dependencies : List String
  urls : List String
  results : List AnalyzeInput
deriving DecidableEq

/-- `task.get("priority", 0)`. -/
def taskPriority (t : Task) : Int := t.priority.getD 0

/-- `TaskManagerAgent.get_next_task`: filter the tasks whose `status` is
`"pending"`, sort the filtered copy descending by `priority`
(`sort(key = priority, reverse = True)`, a stable sort), return its head, or
`None` when no task is pending.  The source sorts a fresh list built by the
comprehension, so the argument list is left untouched. -/
def get_next_task (tasks : List Task) : Option Task :=
  let pending_tasks := tasks.filter (fun t => decide (t.status = some "pending"))
  (stableSortDesc taskPriority pending_tasks).head?

/-- `TaskManagerAgent.mark_completed`: set `status := "completed"` on every
task whose `id` equals `task_id` (the source mutates the matching dicts in
place and returns the list). -/
def mark_completed (tasks : List Task) (task_id : String) : List Task :=
  tasks.map (fun t =>
    if t.id = some task_id then { t with status := some "completed" } else t)

/-- Spec-level description of `get_next_task` («highest priority,
first-inserted among ties, only pending tasks»), written independently of
the sorting route the source takes. -/
def firstMaxPendingTask (tasks : List Task) : Option Task :=
  firstMaxBy taskPriority
    (tasks.filter (fun t => decide (t.status = some "pending")))

/-! ## D6. Web search tool — `src/tools/web_search.py`

The Tavily client call is external: its outcome is either a response dict
(whose keys are read with `response.get(key, default)`) or a raised
exception. -/

structure TavilyResponse where
  results : Option (List SearchItem)
  answer : Option String
  images : Option (List String)

inductive SearchOutcome where
  | resp (r : TavilyResponse)
  | exc (msg : String)

/-- The dict returned by `TavilySearchTool.search`: on success
`{query, results, answer, images}`, on failure `{query, results: [], error}`.
Absent keys are `none`. -/
structure SearchDict where
  query : String
  results : List SearchItem
  answer : Option String
  images : Option (List String)
  error : Option String
deriving DecidableEq

namespace TavilySearchTool

/-- `TavilySearchTool.search`.  `max_results`, `search_depth` and the domain
filters only parameterize the external call and are absorbed into the
outcome oracle. -/
def search (outcome : SearchOutcome) (query : String) : SearchDict :=
  match outcome with
  | .resp r =>
      { query := query, results := r.results.getD [],
        answer := some (r.answer.getD ""), images := some (r.images.getD []),
        error := none }
  | .exc e =>
      { query := query, results := [], answer := none, images := none,
        error := some e }

end TavilySearchTool

/-! ## D7. Content fetch tool — `src/tools/content_fetch.py`

`requests.get`, `raise_for_status` and the BeautifulSoup extraction are
external: the oracle yields either the extracted page (`title` is
`soup.title.string if soup.title else …`, modelled as an `Option`; `text` is
`soup.get_text(...)`) or a raised exception. -/

inductive FetchOutcome where
  | page (title : Option String) (text : String)
  | exc (msg : String)

/-- The dict returned by `ContentFetchTool.fetch`: on success
`{url, title, content, status: "success", length}`, on failure
`{url, status: "error", error}`.  Absent keys are `none`. -/
structure FetchDict where
  url : String
  title : Option String
  content : Option String
  status : String
  length : Option Nat
  error : Option String
deriving DecidableEq

namespace ContentFetchTool

/-- `ContentFetchTool.fetch`. -/
def fetch (net : String → FetchOutcome) (url : String) : FetchDict :=
  match net url with
  | .page title text =>
      { url := url, title := some (title.getD "No title"), content := some text,
        status := "success", length := some text.length, error := none }
  | .exc e =>
      { url := url, title := none, content := none, status := "error",
        length := none, error := some e }

/-- `ContentFetchTool.fetch_multiple`: fetch each URL in turn. -/
def fetch_multiple (net : String → FetchOutcome) (urls : List String) :
    List FetchDict :=
  urls.map (fetch net)

/-- The truncation step of `extract_main_content` (lines 87–89):
`content[:max_length] + "..."` when the content exceeds `max_length`. -/
def truncate_with_ellipsis (content : String) (max_length : Nat) : String :=
  if content.length > max_length then pyTake content max_length ++ "..."
  else content

/-- `ContentFetchTool.extract_main_content` (default `max_length = 5000`). -/
def extract_main_content (net : String → FetchOutcome) (url : String)
    (max_length : Nat) : String :=
  let result := fetch net url
  if result.status = "error" then
    "Error fetching " ++ url ++ ": " ++ (result.error.getD "")
  else
    let content := truncate_with_ellipsis (result.content.getD "") max_length
    "Title: " ++ (result.title.getD "") ++ "\nURL: " ++ url ++ "\n\n" ++ content

end ContentFetchTool

/-! ## D8. Document processing — `src/tools/document.py`

`RecursiveCharacterTextSplitter.split_text` is an external library call,
passed as the `split_text` oracle; `extract_key_points` is pure repository
code. -/

namespace DocumentProcessor

/-- `DocumentProcessor.extract_key_points`: split on `"."`, strip, keep the
sentences longer than 20 characters, return the first `max_points`. -/
def extract_key_points (text : String) (max_points : Nat) : List String :=
  (((text.splitOn ".").map String.trim).filter (fun s => s.length > 20)).take
    max_points

end DocumentProcessor

/-- A document chunk produced by `process_document`: the chunk text plus the
metadata dict `{**metadata, chunk_index}` where `metadata` is
`{url, title}` as passed by `process_for_rag`. -/
structure DocChunk where
  content : String
  url : Option String
  title : Option String
  chunk_index : Nat
deriving DecidableEq

/-- `DocumentProcessor.process_document`: split the content and attach
metadata with the chunk index. -/
def process_document (split_text : String → List String) (content : String)
    (url title : Option String) : List DocChunk :=
  (split_text content).enum.map (fun p =>
    { content := p.2, url := url, title := title, chunk_index := p.1 })

/-! ## D9. Research agent — `src/agents/research.py`

`execute_task` returns one of four dict shapes, modelled as an inductive:
search results, fetched content, an analysis, or the unknown-type error
dict. -/

structure Analysis where
  key_points : List String
  total_sources : Nat
  content_length : Nat
deriving DecidableEq

inductive ExecResult where
  | searchResult (query : String) (results : List SearchItem) (answer : String)
      (source : String)
  | fetchResult (task_id : Option String) (content : List FetchDict)
      (source : String)
  | analyzeResult (task_id : Option String) (analysis : Analysis)
      (source : String)
  | unknownType (task_id : Option String) (error : String)
deriving DecidableEq

namespace ResearchAgent

/-- `ResearchAgent.execute_search`: call the search tool and repackage
`{query, results, answer, source}`. -/
def execute_search (searchNet : String → SearchOutcome) (query : String) :
    ExecResult :=
  let results := TavilySearchTool.search (searchNet query) query
  .searchResult query results.results (results.answer.getD "") "tavily_search"

/-- `ResearchAgent.analyze_results`: gather every available content string
(`result["content"]`, else the contents of `result["results"]`), join with
blank lines, extract key points. -/
def analyze_results (results : List AnalyzeInput) : Analysis :=
  let all_content := results.flatMap (fun r =>
    match r.content with
    | some c => [c]
    | none =>
        match r.results with
        | some items => items.filterMap (fun item => item.content)
        | none => [])
  let combined_text := String.intercalate "\n\n" all_content
  { key_points := DocumentProcessor.extract_key_points combined_text 10,
    total_sources := results.length,
    content_length := combined_text.length }

/-- `ResearchAgent.execute_task`: dispatch on `task.get("type", "search")`.
An unknown type yields `{task_id, error: "Unknown task type: <type>"}`. -/
def execute_task (searchNet : String → SearchOutcome)
    (fetchNet : String → FetchOutcome) (task : Task) : ExecResult :=
  let task_type := task.type.getD "search"
  if task_type = "search" then
    execute_search searchNet (task.description.getD "")
  else if task_type = "fetch" then
    .fetchResult task.id (ContentFetchTool.fetch_multiple fetchNet task.urls)
      "content_fetch"
  else if task_type = "analyze" then
    .analyzeResult task.id (analyze_results task.results) "analysis"
  else
    .unknownType task.id ("Unknown task type: " ++ task_type)

/-- `ResearchAgent.process_for_rag`. -/
def process_for_rag (split_text : String → List String) (content : String)
    (url title : Option String) : List DocChunk :=
  process_document split_text content url title

end ResearchAgent

/-! ## D10. Memory manager — `src/memory/manager.py` -/

/-- The heterogeneous payloads the workflow puts into working memory. -/
inductive WMContent (Plan : Type) where
  | planItem (p : Plan)
  | tasksItem (ts : List Task)
  | resultItem (r : ExecResult)

/-- `MemoryManager`: a working memory plus a short-term memory.  The
workflow stores `Plan` payloads (`state["plan"]`, an arbitrary parsed JSON
dict, kept as the type parameter `Plan`; `none` models the initial empty
dict) and `ExecResult` entries. -/
structure MemoryManager (Plan : Type) where
  working_memory : WorkingMemory (WMContent Plan)
  short_term_memory : ShortTermMemory (Option Plan) ExecResult

def MemoryManager.add_to_working (mm : MemoryManager Plan) (item_type : String)
    (content : WMContent Plan) (metadata : Option (List (String × String)))
    (now : String) : MemoryManager Plan :=
  { mm with working_memory := mm.working_memory.add item_type content metadata now }

def MemoryManager.save_session (mm : MemoryManager Plan) (query : String)
    (plan : Option Plan) (results : List ExecResult) (report : String)
    (metadata : Option (List (String × String))) (now : String) :
    MemoryManager Plan :=
  { mm with
    short_term_memory :=
      mm.short_term_memory.save_session query plan results report metadata now }

/-- The dict returned by `MemoryManager.get_context`. -/
structure MemoryContext (Plan : Type) where
  working_memory : List (MemoryItem (WMContent Plan))
  short_term_memory : List (SessionRecord (Option Plan) ExecResult)
  working_summary : String
  short_term_summary : String

/-- `MemoryManager.get_context`; `strC` models Python `str()` on working
memory payloads. -/
def MemoryManager.get_context (strC : WMContent Plan → String)
    (mm : MemoryManager Plan) : MemoryContext Plan :=
  { working_memory := mm.working_memory.get_recent none,
    short_term_memory := mm.short_term_memory.get_recent_sessions (some 3),
    working_summary := mm.working_memory.get_context_summary strC,
    short_term_summary := mm.short_term_memory.get_summary }

/-- `MemoryManager.find_relevant_history`: delegates to
`ShortTermMemory.find_similar_queries`. -/
def MemoryManager.find_relevant_history (mm : MemoryManager Plan)
    (query : String) (top_k : Nat) :
    List (SessionRecord (Option Plan) ExecResult) :=
  mm.short_term_memory.find_similar_queries query top_k

/-! ## D11. Workflow — `src/workflows/research_flow.py`, `states.py`,
`config.py`

`ResearchState` is the LangGraph state.  The fields `tasks`,
`search_results` and `documents` are declared with the `operator.add`
reducer in `states.py`: a node's returned value for such a field is
*appended* to the state's current value.  All other fields are overwritten.

The language-model calls (`create_plan`, `create_tasks`, `generate_report`),
the tool providers, the text splitter, the RAG store and the clock are the
oracle bundle `WorkflowOracles`. -/

structure ResearchConfig where
  llm_provider : String := "openai"
  max_iterations : Int := 5
  enable_rag : Bool := true
  memory_enabled : Bool := true
  verbose : Bool := false

structure ResearchState (Plan : Type) where
  query : String
  llm_provider : String
  plan : Option Plan
  tasks : List Task
  search_results : List ExecResult
  documents : List DocChunk
  rag_context : String
  memory_context : Option (MemoryContext Plan)
  report : String
  iteration : Int
  max_iterations : Int
  completed : Bool
  error : Option String

structure WorkflowOracles (Plan : Type) where
  create_plan : String → Option (MemoryContext Plan) → Except String Plan
  create_tasks : Option Plan → Except String (List Task)
  searchNet : String → SearchOutcome
  fetchNet : String → FetchOutcome
  split_text : String → List String
  add_documents : List DocChunk → Except String Unit
  retrieve_context : String → Except String String
  generate_report : String → Option Plan → List ExecResult → String →
    Except String String
  strContent : WMContent Plan → String
  now : String

/-- A stage either raises (carrying the message and the memory state at the
moment of the raise — in Python the memory manager outlives the raised
exception) or yields the updated state and memory. -/
abbrev NodeResult (Plan : Type) :=
  Except (String × MemoryManager Plan) (ResearchState Plan × MemoryManager Plan)

/-- `_plan_node`: get the memory context (when memory is enabled), call the
planning agent, store the plan in working memory, reset the iteration
counters. -/
def plan_node (o : WorkflowOracles Plan) (cfg : ResearchConfig)
    (st : ResearchState Plan) (mm : MemoryManager Plan) : NodeResult Plan :=
  let memory_context :=
    if cfg.memory_enabled then some (MemoryManager.get_context o.strContent mm)
    else none
  match o.create_plan st.query memory_context with
  | .error e => .error (e, mm)
  | .ok plan =>
      let mm' :=
        if cfg.memory_enabled then
          mm.add_to_working "plan" (WMContent.planItem plan) none o.now
        else mm
      .ok ({ st with
             plan := some plan,
             memory_context := memory_context,
             iteration := 0,
             max_iterations := cfg.max_iterations,
             completed := false }, mm')

/-- `_create_tasks_node`: ask the task manager for the task list, store it
in working memory.  `tasks` has the `add` reducer. -/
def create_tasks_node (o : WorkflowOracles Plan) (cfg : ResearchConfig)
    (st : ResearchState Plan) (mm : MemoryManager Plan) : NodeResult Plan :=
  match o.create_tasks st.plan with
  | .error e => .error (e, mm)
  | .ok tasks =>
      let mm' :=
        if cfg.memory_enabled then
          mm.add_to_working "tasks" (WMContent.tasksItem tasks) none o.now
        else mm
      .ok ({ st with tasks := st.tasks ++ tasks }, mm')

/-- `_execute_research_node`: take the next pending task; if none, mark the
state completed.  Otherwise execute the task, mark it completed
(`next_task["id"]` raises a `KeyError` when the dict has no `id`), store the
result, and chunk any search content for RAG.  Because `mark_completed`
mutates the task dicts of the state's own list in place and `tasks` carries
the `add` reducer, the merged `tasks` value is the marked list appended to
itself. -/
def execute_research_node (o : WorkflowOracles Plan) (cfg : ResearchConfig)
    (st : ResearchState Plan) (mm : MemoryManager Plan) : NodeResult Plan :=
  match get_next_task st.tasks with
  | none => .ok ({ st with completed := true }, mm)
  | some next_task =>
      let result := ResearchAgent.execute_task o.searchNet o.fetchNet next_task
      match next_task.id with
      | none => .error ("KeyError: id", mm)
      | some tid =>
          let updated_tasks := mark_completed st.tasks tid
          let mm' :=
            if cfg.memory_enabled then
              mm.add_to_working "research_result" (WMContent.resultItem result)
                none o.now
            else mm
          let documents :=
            if cfg.enable_rag then
              match result with
              | .searchResult _ items _ _ =>
                  items.flatMap (fun item =>
                    match item.content with
                    | some c =>
                        ResearchAgent.process_for_rag o.split_text c item.url
                          item.title
                    | none => [])
              | _ => []
            else []
          .ok ({ st with
                 tasks := updated_tasks ++ updated_tasks,
                 search_results := st.search_results ++ [result],
                 documents := st.documents ++ documents,
                 iteration := st.iteration + 1 }, mm')

/-- `_should_continue_research`: the continuation decision.  First the
iteration cap, then pending-task exhaustion, else continue. -/
def should_continue_research (cfg : ResearchConfig) (st : ResearchState Plan) :
    String :=
  if st.iteration ≥ st.max_iterations then
    if cfg.enable_rag then "rag" else "report"
  else
    let pending_tasks :=
      st.tasks.filter (fun t => decide (t.status = some "pending"))
    if pending_tasks = [] then
      if cfg.enable_rag then "rag" else "report"
    else "continue"

/-- `_update_rag_node`: add the gathered chunks to the RAG store (when there
are any) and retrieve context for the query. -/
def update_rag_node (o : WorkflowOracles Plan) (cfg : ResearchConfig)
    (st : ResearchState Plan) (mm : MemoryManager Plan) : NodeResult Plan :=
  if ¬ cfg.enable_rag then .ok ({ st with rag_context := "" }, mm)
  else
    match (if st.documents ≠ [] then o.add_documents st.documents
           else .ok ()) with
    | .error e => .error (e, mm)
    | .ok _ =>
        match o.retrieve_context st.query with
        | .error e => .error (e, mm)
        | .ok rag_context => .ok ({ st with rag_context := rag_context }, mm)

/-- `_generate_report_node`: generate the report, then (when memory is
enabled) save the completed session to short-term memory. -/
def generate_report_node (o : WorkflowOracles Plan) (cfg : ResearchConfig)
    (st : ResearchState Plan) (mm : MemoryManager Plan) : NodeResult Plan :=
  match o.generate_report st.query st.plan st.search_results st.rag_context with
  | .error e => .error (e, mm)
  | .ok report =>
      let mm' :=
        if cfg.memory_enabled then
          mm.save_session st.query st.plan st.search_results report none o.now
        else mm
      .ok ({ st with report := report, completed := true }, mm')

/-- The nodes of the compiled LangGraph. -/
inductive GraphNode where
  | plan
  | create_tasks
  | execute_research
  | update_rag
  | generate_report
deriving DecidableEq

/-- One LangGraph superstep: run the current node, return the next node (or
`none` for `END`).  After `execute_research` the conditional edge maps the
string returned by `_should_continue_research` through
`{continue → execute_research, rag → update_rag, report → generate_report}`
(any other string would be an unknown branch, an error in LangGraph). -/
def graph_step (o : WorkflowOracles Plan) (cfg : ResearchConfig)
    (node : GraphNode) (st : ResearchState Plan) (mm : MemoryManager Plan) :
    Except (String × MemoryManager Plan)
      (Option GraphNode × ResearchState Plan × MemoryManager Plan) :=
  match node with
  | .plan =>
      match plan_node o cfg st mm with
      | .error em => .error em
      | .ok (st', mm') => .ok (some .create_tasks, st', mm')
  | .create_tasks =>
      match create_tasks_node o cfg st mm with
      | .error em => .error em
      | .ok (st', mm') => .ok (some .execute_research, st', mm')
  | .execute_research =>
      match execute_research_node o cfg st mm with
      | .error em => .error em
      | .ok (st', mm') =>
          match should_continue_research cfg st' with
          | "continue" => .ok (some .execute_research, st', mm')
          | "rag" => .ok (some .update_rag, st', mm')
          | "report" => .ok (some .generate_report, st', mm')
          | other => .error ("Unknown branch: " ++ other, mm')
  | .update_rag =>
      match update_rag_node o cfg st mm with
      | .error em => .error em
      | .ok (st', mm') => .ok (some .generate_report, st', mm')
  | .generate_report =>
      match generate_report_node o cfg st mm with
      | .error em => .error em
      | .ok (st', mm') => .ok (none, st', mm')

/-- LangGraph executes supersteps under a recursion limit (default 25) and
raises `GraphRecursionError` when it is exhausted. -/
def RECURSION_LIMIT : Nat := 25

/-- Run the graph from `node` with the given superstep budget. -/
def graph_run (o : WorkflowOracles Plan) (cfg : ResearchConfig) :
    Nat → GraphNode → ResearchState Plan → MemoryManager Plan →
    NodeResult Plan
  | 0, _, _, mm => .error ("GraphRecursionError", mm)
  | fuel + 1, node, st, mm =>
      match graph_step o cfg node st mm with
      | .error em => .error em
      | .ok (none, st', mm') => .ok (st', mm')
      | .ok (some next, st', mm') => graph_run o cfg fuel next st' mm'

/-- The initial state built by `ResearchWorkflow.run`. -/
def initial_state (cfg : ResearchConfig) (query : String) :
    ResearchState Plan :=
  { query := query, llm_provider := cfg.llm_provider, plan := none,
    tasks := [], search_results := [], documents := [], rag_context := "",
    memory_context := none, report := "", iteration := 0,
    max_iterations := cfg.max_iterations, completed := false, error := none }

/-- `ResearchWorkflow.run`: invoke the graph on the initial state; any
exception raised by a stage is caught and turned into
`{**initial_state, error: str(e), completed: True}`.  The memory manager
(`self.memory_manager`) survives either way. -/
def workflow_run (o : WorkflowOracles Plan) (cfg : ResearchConfig)
    (mm : MemoryManager Plan) (query : String) :
    ResearchState Plan × MemoryManager Plan :=
  match graph_run o cfg RECURSION_LIMIT .plan (initial_state cfg query) mm with
  | .ok (final_state, mm') => (final_state, mm')
  | .error (e, mm') =>
      let st0 : ResearchState Plan := initial_state cfg query
      ({ st0 with error := some e, completed := true }, mm')

/-! ## D12. Insertion-call records (for quantifying over call sequences)

A call to `WorkingMemory.add` or `ShortTermMemory.save_session` is a record
of its arguments, so a *sequence of insertions* is a list of such records. -/

structure WorkingAdd (χ : Type) where
  item_type : String
  content : χ
  metadata : Option (List (String × String))
  now : String

def applyWorkingAdd (wm : WorkingMemory χ) (a : WorkingAdd χ) :
    WorkingMemory χ :=
  wm.add a.item_type a.content a.metadata a.now

/-- The memory item that `WorkingMemory.add` builds for this call. -/
def workingAddItem (a : WorkingAdd χ) : MemoryItem χ :=
  { type := a.item_type, content := a.content, metadata := a.metadata.getD [],
    timestamp := a.now }

structure SaveCall (π ρ : Type) where
  query : String
  plan : π
  results : List ρ
  report : String
  metadata : Option (List (String × String))
  now : String

def applySaveCall (stm : ShortTermMemory π ρ) (c : SaveCall π ρ) :
    ShortTermMemory π ρ :=
  stm.save_session c.query c.plan c.results c.report c.metadata c.now

/-- The session record that `ShortTermMemory.save_session` builds for this
call. -/
def saveCallRecord (c : SaveCall π ρ) : SessionRecord π ρ :=
  { query := c.query, plan := c.plan, results := c.results, report := c.report,
    metadata := c.metadata.getD [], timestamp := c.now }

/-! ## D13. Concrete instances used by witnesses and counterexamples -/

def baseTask : Task :=
  { id := none, description := none, type := none, priority := none,
    status := none, dependencies := [], urls := [], results := [] }

def taskA : Task :=
  { baseTask with id := some "a", priority := some 1, status := some "pending" }

def taskB : Task :=
  { baseTask with id := some "b", priority := some 3, status := some "pending" }

def taskC : Task :=
  { baseTask with id := some "c", priority := some 3, status := some "pending" }

/-- A task dict with no `status` key. -/
def taskNoStatus : Task :=
  { baseTask with id := some "d", priority := some 5 }

/-- A pending task dict with no `priority` key. -/
def taskNoPriority : Task :=
  { baseTask with id := some "e", status := some "pending" }

/-- A pending task of the schema-allowed type `synthesize`. -/
def taskSynth : Task :=
  { baseTask with
    id := some "s1", type := some "synthesize", status := some "pending" }

/-- A pending priority-2 task. -/
def taskF : Task :=
  { baseTask with
    id := some "f", priority := some 2, status := some "pending" }

/-- A fetch task for one URL. -/
def fetchTask : Task :=
  { baseTask with id := some "t1", type := some "fetch", urls := ["u"] }

/-- A page body of 5001 characters — longer than the 5000-character bound
`extract_main_content` is configured with. -/
def bigText : String := String.mk (List.replicate 5001 'a')

def bigPageNet : String → FetchOutcome := fun _ => .page (some "T") bigText

def demoSearchNet : String → SearchOutcome := fun _ => .exc "no provider"

def sessA : SessionRecord (Option String) ExecResult :=
  { query := "alpha beta", plan := none, results := [], report := "",
    metadata := [], timestamp := "t1" }

/-- Stored after `sessA`, with the same query text. -/
def sessB : SessionRecord (Option String) ExecResult :=
  { query := "alpha beta", plan := none, results := [], report := "",
    metadata := [], timestamp := "t2" }

/-- A memory manager whose short-term store holds `sessA` then `sessB`. -/
def demoMgr : MemoryManager String :=
  { working_memory := {},
    short_term_memory := { max_size := 10, sessions := [sessA, sessB] } }

def demoAdds : List (WorkingAdd String) :=
  [{ item_type := "query", content := "q1", metadata := none, now := "t1" },
   { item_type := "result", content := "r1", metadata := none, now := "t2" },
   { item_type := "query", content := "q2", metadata := none, now := "t3" }]

def demoSaves : List (SaveCall String String) :=
  [{ query := "q1", plan := "", results := [], report := "r1",
     metadata := none, now := "t1" },
   { query := "q2", plan := "", results := [], report := "r2",
     metadata := none, now := "t2" },
   { query := "q3", plan := "", results := [], report := "r3",
     metadata := none, now := "t3" }]

def demoCfgNoRag : ResearchConfig :=
  { llm_provider := "openai", max_iterations := 5, enable_rag := false,
    memory_enabled := true, verbose := false }

/-- A state at the iteration cap that still has a pending task. -/
def demoStateAtCap : ResearchState Unit :=
  { query := "Q", llm_provider := "openai", plan := none, tasks := [taskB],
    search_results := [], documents := [], rag_context := "",
    memory_context := none, report := "", iteration := 5, max_iterations := 5,
    completed := false, error := none }

def demoCfg : ResearchConfig := {}

def demoMM : MemoryManager Unit :=
  { working_memory := {}, short_term_memory := {} }

/-- Oracles whose planning call raises `boom`; all other collaborators
answer trivially. -/
def failPlanOracles : WorkflowOracles Unit :=
  { create_plan := fun _ _ => .error "boom",
    create_tasks := fun _ => .ok [],
    searchNet := fun _ => .exc "down",
    fetchNet := fun _ => .exc "down",
    split_text := fun _ => [],
    add_documents := fun _ => .ok (),
    retrieve_context := fun _ => .ok "",
    generate_report := fun _ _ _ _ => .ok "",
    strContent := fun _ => "",
    now := "2026-01-01T00:00:00" }

/-! ## T1. Ring buffer lemmas -/

/-- Appending one element to the ring buffer view `l.drop (l.length - c)`
(the last `c` elements of `l`) yields the last `c` elements of `l ++ [x]`. -/
theorem dequeAppend_drop (c : Nat) (l : List α) (x : α) :
    dequeAppend c (l.drop (l.length - c)) x
      = (l ++ [x]).drop ((l ++ [x]).length - c) := by
  have hm : l.length - c ≤ l.length := Nat.sub_le _ _
  unfold dequeAppend
  rw [← List.drop_append_of_le_length hm, List.drop_drop]
  congr 1
  simp only [List.length_drop, List.length_append, List.length_cons,
    List.length_nil]
  omega

/-- Folding `dequeAppend c` over any sequence of appended elements, starting
from the empty deque, retains exactly the trailing `c` elements in their
original relative order. -/
theorem foldl_dequeAppend (c : Nat) (items : List α) :
    items.foldl (dequeAppend c) [] = items.drop (items.length - c) := by
  induction items using List.reverseRecOn with
  | nil => simp [dequeAppend]
  | append_singleton l x ih =>
      rw [List.foldl_append, ih]
      simpa using dequeAppend_drop c l x

/-! ## T2. Stable descending sort lemmas -/

theorem perm_stableInsertDesc (key : α → β) (a : α) (l : List α) :
    (stableInsertDesc key a l).Perm (a :: l) := by
  induction l with
  | nil => simp [stableInsertDesc]
  | cons x l ih =>
      by_cases h : key x ≤ key a
      · simp [stableInsertDesc, h]
      · simp only [stableInsertDesc, if_neg h]
        exact (ih.cons x).trans (List.Perm.swap a x l)

theorem perm_stableSortDesc (key : α → β) (l : List α) :
    (stableSortDesc key l).Perm l := by
  induction l with
  | nil => simp [stableSortDesc]
  | cons a l ih =>
      exact (perm_stableInsertDesc key a (stableSortDesc key l)).trans (ih.cons a)

theorem pairwise_stableInsertDesc (key : α → β) (a : α) (l : List α)
    (hl : l.Pairwise (fun u v => key v ≤ key u)) :
    (stableInsertDesc key a l).Pairwise (fun u v => key v ≤ key u) := by
  induction l with
  | nil => simp [stableInsertDesc]
  | cons x l ih =>
      rcases List.pairwise_cons.mp hl with ⟨hx, hl'⟩
      by_cases h : key x ≤ key a
      · rw [stableInsertDesc, if_pos h]
        refine List.pairwise_cons.mpr ⟨?_, hl⟩
        intro z hz
        rcases List.mem_cons.mp hz with rfl | hz'
        · exact h
        · exact le_trans (hx z hz') h
      · rw [stableInsertDesc, if_neg h]
        refine List.pairwise_cons.mpr ⟨?_, ih hl'⟩
        intro z hz
        have := (perm_stableInsertDesc key a l).mem_iff.mp hz
        rcases List.mem_cons.mp this with rfl | hz'
        · exact le_of_not_le h
        · exact hx z hz'

/-- The result of `stableSortDesc` is sorted: keys are non-increasing. -/
theorem pairwise_stableSortDesc (key : α → β) (l : List α) :
    (stableSortDesc key l).Pairwise (fun u v => key v ≤ key u) := by
  induction l with
  | nil => simp [stableSortDesc]
  | cons a l ih => exact pairwise_stableInsertDesc key a _ ih

/-- Stability, phrased on key classes: restricted to the elements whose key
is any fixed value `v`, the sorted list agrees with the input list. -/
theorem filter_stableInsertDesc [DecidableEq β] (key : α → β) (a : α)
    (l : List α) (v : β) :
    (stableInsertDesc key a l).filter (fun u => key u = v)
      = if key a = v then a :: l.filter (fun u => key u = v)
        else l.filter (fun u => key u = v) := by
  induction l with
  | nil =>
      by_cases h : key a = v <;> simp [stableInsertDesc, List.filter, h]
  | cons x l ih =>
      by_cases h : key x ≤ key a
      · rw [stableInsertDesc, if_pos h]
        by_cases ha : key a = v <;> simp [List.filter_cons, ha]
      · rw [stableInsertDesc, if_neg h]
        have hlt : key a < key x := lt_of_not_le h
        by_cases ha : key a = v
        · have hx : ¬ (key x = v) := by
            intro hxv; rw [ha] at hlt; rw [hxv] at hlt; exact lt_irrefl v hlt
          simp [List.filter_cons, ih, ha, hx]
        · by_cases hx : key x = v <;> simp [List.filter_cons, ih, ha, hx]

theorem filter_stableSortDesc [DecidableEq β] (key : α → β) (l : List α)
    (v : β) :
    (stableSortDesc key l).filter (fun u => key u = v)
      = l.filter (fun u => key u = v) := by
  induction l with
  | nil => simp [stableSortDesc]
  | cons a l ih =>
      rw [stableSortDesc, filter_stableInsertDesc]
      by_cases ha : key a = v <;> simp [List.filter_cons, ha, ih]

theorem head?_stableInsertDesc (key : α → β) (a : α) (l : List α) :
    (stableInsertDesc key a l).head?
      = some (match l.head? with
          | none => a
          | some x => if key x ≤ key a then a else x) := by
  cases l with
  | nil => simp [stableInsertDesc]
  | cons x l =>
      by_cases h : key x ≤ key a <;> simp [stableInsertDesc, h]

/-- The head of the stable descending sort is exactly the first element with
the maximal key. -/
theorem head?_stableSortDesc (key : α → β) (l : List α) :
    (stableSortDesc key l).head? = firstMaxBy key l := by
  induction l with
  | nil => simp [stableSortDesc, firstMaxBy]
  | cons a l ih =>
      rw [stableSortDesc, head?_stableInsertDesc, ih, firstMaxBy]
      cases h : firstMaxBy key l with
      | none => simp
      | some b =>
          simp only []
          by_cases hba : key b ≤ key a
          · rw [if_pos hba, if_neg (not_lt_of_le hba)]
          · rw [if_neg hba, if_pos (lt_of_not_le hba)]

theorem stableSortDesc_eq_nil_iff (key : α → β) (l : List α) :
    stableSortDesc key l = [] ↔ l = [] := by
  constructor
  · intro h
    have := perm_stableSortDesc key l
    rw [h] at this
    exact this.symm.eq_nil
  · intro h; subst h; rfl

/-- `stableSortDesc` by the first component commutes with tagging each
element by its key. -/
theorem stableSortDesc_map_pair (key : α → β) (l : List α) :
    stableSortDesc Prod.fst (l.map (fun s => (key s, s)))
      = (stableSortDesc key l).map (fun s => (key s, s)) := by
  have hins : ∀ (a : α) (m : List α),
      stableInsertDesc Prod.fst (key a, a) (m.map (fun s => (key s, s)))
        = (stableInsertDesc key a m).map (fun s => (key s, s)) := by
    intro a m
    induction m with
    | nil => simp [stableInsertDesc]
    | cons x m ih =>
        by_cases h : key x ≤ key a
        · simp [stableInsertDesc, h]
        · simp [stableInsertDesc, h, ih]
  induction l with
  | nil => simp [stableSortDesc]
  | cons a l ih =>
      rw [List.map_cons, stableSortDesc, stableSortDesc, ih, hins]

/-! ## T3. Task manager lemmas -/

/-- Characterisation of `get_next_task` as returned task: it is a member,
it is pending, and its priority dominates all pending members. -/
theorem get_next_task_spec (tasks : List Task) (t : Task)
    (h : get_next_task tasks = some t) :
    t ∈ tasks ∧ t.status = some "pending" ∧
      ∀ u ∈ tasks, u.status = some "pending" → taskPriority u ≤ taskPriority t := by
  unfold get_next_task at h
  set pending := tasks.filter (fun u => decide (u.status = some "pending"))
    with hpending
  have h' : (stableSortDesc taskPriority pending).head? = some t := h
  have hperm := perm_stableSortDesc taskPriority pending
  have hsorted := pairwise_stableSortDesc taskPriority pending
  obtain ⟨rest, hrest⟩ : ∃ rest, stableSortDesc taskPriority pending = t :: rest := by
    cases hs : stableSortDesc taskPriority pending with
    | nil => rw [hs] at h'; simp at h'
    | cons x xs =>
        rw [hs] at h'
        simp only [List.head?_cons, Option.some.injEq] at h'
        exact ⟨xs, by rw [h']⟩
  have htp : t ∈ pending := by
    have : t ∈ stableSortDesc taskPriority pending := by
      rw [hrest]; exact List.mem_cons_self t rest
    exact hperm.mem_iff.mp this
  have htmem : t ∈ tasks := List.mem_of_mem_filter htp
  have htpend : t.status = some "pending" := by
    have := List.of_mem_filter htp
    simpa using this
  refine ⟨htmem, htpend, ?_⟩
  intro u hu hupend
  have hup : u ∈ pending := by
    rw [hpending]
    exact List.mem_filter.mpr ⟨hu, by simpa using hupend⟩
  have hus : u ∈ stableSortDesc taskPriority pending := hperm.mem_iff.mpr hup
  rw [hrest] at hus hsorted
  rcases List.mem_cons.mp hus with rfl | hus'
  · exact le_refl _
  · exact (List.pairwise_cons.mp hsorted).1 u hus'

/-- `get_next_task` never returns a task whose `id` was just marked
completed by `mark_completed`. -/
theorem get_next_task_mark_completed_aux (tasks : List Task) (task_id : String)
    (t : Task) (h : get_next_task (mark_completed tasks task_id) = some t) :
    t.id ≠ some task_id := by
  obtain ⟨hmem, hpend, _⟩ := get_next_task_spec _ _ h
  intro hid
  unfold mark_completed at hmem
  rcases List.mem_map.mp hmem with ⟨u, _, hu⟩
  by_cases hcase : u.id = some task_id
  · rw [if_pos hcase] at hu
    rw [← hu] at hpend
    simp at hpend
  · rw [if_neg hcase] at hu
    rw [← hu] at hid
    exact hcase hid

/-! ## T4. Claim C5 -/

/-- C5: For every task list, `get_next_task` returns the pending task with
the highest priority, and among equal priorities the first-inserted one
(stated as agreement with the spec-level scan `firstMaxPendingTask`, plus
membership, pendingness and priority-maximality of the returned task).  As a
pure function of the task list it is deterministic, and it does not mutate
its argument: the source sorts a fresh list built by a comprehension, which
the embedding renders by `get_next_task` consuming its argument read-only. -/
theorem claim_c5_get_next_task_deterministic (tasks : List Task) :
    get_next_task tasks = firstMaxPendingTask tasks ∧
      ∀ t, get_next_task tasks = some t →
        t ∈ tasks ∧ t.status = some "pending" ∧
          ∀ u ∈ tasks, u.status = some "pending" →
            taskPriority u ≤ taskPriority t := by
  constructor
  · unfold get_next_task firstMaxPendingTask
    exact head?_stableSortDesc _ _
  · intro t h
    exact get_next_task_spec tasks t h

/-- Witness for C5 at a concrete task list: priorities 1, 3, 3 — the
first-inserted of the two priority-3 tasks is returned, it is pending, and
it dominates the priorities of all pending tasks. -/
theorem claim_c5_witness :
    get_next_task [taskA, taskB, taskC] = some taskB ∧
      taskB.status = some "pending" ∧
      ∀ u ∈ [taskA, taskB, taskC], u.status = some "pending" →
        taskPriority u ≤ taskPriority taskB := by
  have h := (claim_c5_get_next_task_deterministic [taskA, taskB, taskC]).2
    taskB (by decide)
  exact ⟨by decide, h.2.1, h.2.2⟩

/-! ## T5. Claim C6 -/

/-- C6: For every task list and every task id occurring in it, marking that
id completed and then asking for the next task never yields a task with
that id. -/
theorem claim_c6_mark_completed_excludes (tasks : List Task) (task_id : String)
    (_hex : ∃ t ∈ tasks, t.id = some task_id) :
    ∀ t, get_next_task (mark_completed tasks task_id) = some t →
      t.id ≠ some task_id := by
  intro t h
  exact get_next_task_mark_completed_aux tasks task_id t h

/-- Witness for C6: completing `b` (the top-priority task) makes
`get_next_task` fall back to `a`, whose id is not `b`. -/
theorem claim_c6_witness :
    get_next_task (mark_completed [taskA, taskB] "b") = some taskA ∧
      taskA.id ≠ some "b" := by
  refine ⟨by decide, ?_⟩
  exact claim_c6_mark_completed_excludes [taskA, taskB] "b"
    ⟨taskB, by decide, by decide⟩ taskA (by decide)

/-! ## T6. Claim C10 -/

/-- C10: `get_next_task` only ever returns a task whose `status` field is
present and equal to `"pending"` (a task lacking the field is never
returned), and a pending task lacking a `priority` field counts as priority
0, so it is never returned while some pending task has positive priority. -/
theorem claim_c10_pending_and_default_priority :
    (∀ (tasks : List Task) (t : Task), get_next_task tasks = some t →
        t.status = some "pending") ∧
      ∀ (tasks : List Task) (u t : Task), u ∈ tasks →
        u.status = some "pending" → 0 < taskPriority u → t.priority = none →
        get_next_task tasks ≠ some t := by
  constructor
  · intro tasks t h
    exact (get_next_task_spec tasks t h).2.1
  · intro tasks u t hu hupend hupos htpri h
    have hmax := (get_next_task_spec tasks t h).2.2 u hu hupend
    have : taskPriority t = 0 := by simp [taskPriority, htpri]
    omega

/-- Witness for C10: with a status-less task, a pending priority-less task
and a pending priority-2 task in the list, the returned task is pending,
and the priority-less task is not returned. -/
theorem claim_c10_witness :
    (∀ t, get_next_task [taskNoStatus, taskNoPriority, taskF] = some t →
      t.status = some "pending") ∧
      get_next_task [taskNoStatus, taskNoPriority, taskF]
        ≠ some taskNoPriority := by
  constructor
  · intro t h
    exact claim_c10_pending_and_default_priority.1 _ t h
  · exact claim_c10_pending_and_default_priority.2 _ taskF taskNoPriority
      (by decide) (by decide) (by decide) (by decide)

/-! ## T7. Claim C1 -/

/-- C1: `_should_continue_research` is total — it returns exactly one of
`continue`, `rag`, `report`; the iteration cap is checked before pending
exhaustion (at or past the cap the answer is `rag`/`report` according to the
RAG flag, whatever the task list holds); and it never returns `continue`
once `iteration ≥ max_iterations`. -/
theorem claim_c1_should_continue_total {Plan : Type} (cfg : ResearchConfig)
    (st : ResearchState Plan) :
    (should_continue_research cfg st = "continue" ∨
      should_continue_research cfg st = "rag" ∨
      should_continue_research cfg st = "report") ∧
    (st.iteration ≥ st.max_iterations →
      should_continue_research cfg st = if cfg.enable_rag then "rag" else "report") ∧
    (should_continue_research cfg st = "continue" →
      st.iteration < st.max_iterations) := by
  unfold should_continue_research
  by_cases hcap : st.iteration ≥ st.max_iterations
  · rw [if_pos hcap]
    cases cfg.enable_rag <;>
      exact ⟨by simp, fun _ => by simp, fun h => by simp at h⟩
  · rw [if_neg hcap]
    refine ⟨?_, fun h => absurd h hcap, fun _ => lt_of_not_le hcap⟩
    by_cases hp : st.tasks.filter (fun t => decide (t.status = some "pending")) = []
    · rw [if_pos hp]
      cases cfg.enable_rag <;> simp
    · rw [if_neg hp]
      simp

/-- Witness for C1 at the iteration cap: with RAG disabled, iteration 5 of
5, and a still-pending task in the list, the decision is `report` — the cap
dominates task exhaustion. -/
theorem claim_c1_witness :
    should_continue_research demoCfgNoRag demoStateAtCap = "report" ∧
      demoStateAtCap.tasks.filter
        (fun t => decide (t.status = some "pending")) ≠ [] := by
  refine ⟨?_, by decide⟩
  exact (claim_c1_should_continue_total demoCfgNoRag demoStateAtCap).2.1
    (by decide)

/-! ## T8. Claim C2 -/

theorem foldl_applyWorkingAdd (c : Nat) (adds : List (WorkingAdd χ))
    (mem0 : List (MemoryItem χ)) :
    (adds.foldl applyWorkingAdd { max_size := c, memory := mem0 }).memory
      = (adds.map workingAddItem).foldl (dequeAppend c) mem0 := by
  induction adds generalizing mem0 with
  | nil => rfl
  | cons a rest ih =>
      simp only [List.foldl_cons, List.map_cons]
      rw [show applyWorkingAdd { max_size := c, memory := mem0 } a
            = { max_size := c,
                memory := dequeAppend c mem0 (workingAddItem a) } from rfl]
      exact ih _

theorem foldl_applySaveCall (c : Nat) (saves : List (SaveCall π ρ))
    (sess0 : List (SessionRecord π ρ)) :
    (saves.foldl applySaveCall { max_size := c, sessions := sess0 }).sessions
      = (saves.map saveCallRecord).foldl (dequeAppend c) sess0 := by
  induction saves generalizing sess0 with
  | nil => rfl
  | cons a rest ih =>
      simp only [List.foldl_cons, List.map_cons]
      rw [show applySaveCall { max_size := c, sessions := sess0 } a
            = { max_size := c,
                sessions := dequeAppend c sess0 (saveCallRecord a) } from rfl]
      exact ih _

/-- C2: For every capacity `c` and every sequence of `c + k` insertions,
`WorkingMemory.add` and `ShortTermMemory.save_session` keep exactly the last
`c` inserted entries, in their original relative order — the oldest entry is
evicted first once capacity is exceeded. -/
theorem claim_c2_ring_buffer_retention {χ π ρ : Type} (c k : Nat)
    (adds : List (WorkingAdd χ)) (saves : List (SaveCall π ρ))
    (hadds : adds.length = c + k) (hsaves : saves.length = c + k) :
    (adds.foldl applyWorkingAdd { max_size := c, memory := [] }).memory
        = (adds.map workingAddItem).drop k ∧
      (saves.foldl applySaveCall { max_size := c, sessions := [] }).sessions
        = (saves.map saveCallRecord).drop k := by
  constructor
  · rw [foldl_applyWorkingAdd, foldl_dequeAppend]
    congr 1
    rw [List.length_map, hadds]
    omega
  · rw [foldl_applySaveCall, foldl_dequeAppend]
    congr 1
    rw [List.length_map, hsaves]
    omega

/-- Witness for C2: capacity 2, three insertions into each store — exactly
the last two entries remain, in insertion order. -/
theorem claim_c2_witness :
    (demoAdds.foldl applyWorkingAdd { max_size := 2, memory := [] }).memory
        = [{ type := "result", content := "r1", metadata := [],
             timestamp := "t2" },
           { type := "query", content := "q2", metadata := [],
             timestamp := "t3" }] ∧
      (demoSaves.foldl applySaveCall { max_size := 2, sessions := [] }).sessions
        = [{ query := "q2", plan := "", results := [], report := "r2",
             metadata := [], timestamp := "t2" },
           { query := "q3", plan := "", results := [], report := "r3",
             metadata := [], timestamp := "t3" }] :=
  ⟨(claim_c2_ring_buffer_retention 2 1 demoAdds demoSaves rfl rfl).1,
   (claim_c2_ring_buffer_retention 2 1 demoAdds demoSaves rfl rfl).2⟩

/-! ## T9. Claim C8 -/

/-- C8: The search and fetch tools never raise on provider failure.  A
search whose provider call raises `msg` returns the dict
`{query, results: [], error: msg}`; a fetch whose network call raises `msg`
returns the dict `{url, status: "error", error: msg}`. -/
theorem claim_c8_tools_absorb_failures :
    (∀ (msg query : String),
      TavilySearchTool.search (SearchOutcome.exc msg) query
        = { query := query, results := [], answer := none, images := none,
            error := some msg }) ∧
      ∀ (net : String → FetchOutcome) (url msg : String), net url = .exc msg →
        ContentFetchTool.fetch net url
          = { url := url, title := none, content := none, status := "error",
              length := none, error := some msg } := by
  constructor
  · intro msg query
    rfl
  · intro net url msg h
    unfold ContentFetchTool.fetch
    rw [h]

/-- Witness for C8 at concrete failing providers. -/
theorem claim_c8_witness :
    TavilySearchTool.search (SearchOutcome.exc "quota exceeded") "q"
      = { query := "q", results := [], answer := none, images := none,
          error := some "quota exceeded" } ∧
      ContentFetchTool.fetch (fun _ => FetchOutcome.exc "connection reset") "u"
        = { url := "u", title := none, content := none, status := "error",
            length := none, error := some "connection reset" } :=
  ⟨claim_c8_tools_absorb_failures.1 "quota exceeded" "q",
   claim_c8_tools_absorb_failures.2 (fun _ => FetchOutcome.exc "connection reset")
     "u" "connection reset" rfl⟩

/-! ## T10. Claim C9 -/

/-- C9: For every task whose `type` is none of `search`, `fetch`, `analyze`
— including the schema-allowed `synthesize` — `execute_task` does not raise
and returns the dict `{task_id: task.id, error: "Unknown task type: <type>"}`. -/
theorem claim_c9_unknown_task_type (searchNet : String → SearchOutcome)
    (fetchNet : String → FetchOutcome) (task : Task) (ty : String)
    (hty : task.type = some ty) (h1 : ty ≠ "search") (h2 : ty ≠ "fetch")
    (h3 : ty ≠ "analyze") :
    ResearchAgent.execute_task searchNet fetchNet task
      = .unknownType task.id ("Unknown task type: " ++ ty) := by
  unfold ResearchAgent.execute_task
  rw [hty]
  simp [h1, h2, h3]

/-- Witness for C9: a `synthesize` task yields the unknown-type error dict. -/
theorem claim_c9_witness :
    ResearchAgent.execute_task demoSearchNet (fun _ => FetchOutcome.exc "down")
        taskSynth
      = .unknownType (some "s1") "Unknown task type: synthesize" :=
  claim_c9_unknown_task_type demoSearchNet (fun _ => FetchOutcome.exc "down")
    taskSynth "synthesize" rfl (by decide) (by decide) (by decide)

/-! ## T11. Claim C7 (corrected) -/

/-- C7, counterexample: a fetch task over one URL whose page body has 5001
characters.  `execute_task` returns that body verbatim — its length, 5001,
exceeds the 5000-character bound `extract_main_content` is configured with
(the only content bound in the module), so fetched content is *not*
truncated to a bounded maximum length on the fetch-task path. -/
theorem claim_c7_counterexample :
    ResearchAgent.execute_task demoSearchNet bigPageNet fetchTask
      = .fetchResult (some "t1")
          [{ url := "u", title := some "T", content := some bigText,
             status := "success", length := some bigText.length,
             error := none }]
          "content_fetch" ∧
      bigText.length = 5001 := by
  refine ⟨rfl, ?_⟩
  exact List.length_replicate 5001 'a'

/-- C7, as amended: the fetch-task path returns every fetched page's content
verbatim (untruncated); bounded truncation — to `max_length` plus the
3-character ellipsis — is applied only inside
`ContentFetchTool.extract_main_content`, which the fetch-task path does not
invoke. -/
theorem claim_c7_truncation_only_in_extract :
    (∀ (searchNet : String → SearchOutcome) (fetchNet : String → FetchOutcome)
        (task : Task), task.type = some "fetch" →
        ResearchAgent.execute_task searchNet fetchNet task
          = .fetchResult task.id
              (ContentFetchTool.fetch_multiple fetchNet task.urls)
              "content_fetch") ∧
      (∀ (net : String → FetchOutcome) (url : String) (title : Option String)
          (text : String), net url = .page title text →
          (ContentFetchTool.fetch net url).content = some text) ∧
      ∀ (content : String) (max_length : Nat),
        (ContentFetchTool.truncate_with_ellipsis content max_length).length
          ≤ max_length + 3 := by
  refine ⟨?_, ?_, ?_⟩
  · intro searchNet fetchNet task h
    unfold ResearchAgent.execute_task
    rw [h]
    simp
  · intro net url title text h
    unfold ContentFetchTool.fetch
    rw [h]
  · intro content m
    unfold ContentFetchTool.truncate_with_ellipsis
    by_cases hl : content.length > m
    · rw [if_pos hl]
      have h1 : (pyTake content m).length ≤ m := by
        unfold pyTake
        show (content.data.take m).length ≤ m
        rw [List.length_take]
        exact min_le_left _ _
      have h2 : (pyTake content m ++ "...").length
          = (pyTake content m).length + 3 := by
        rw [String.length_append]
        rfl
      omega
    · rw [if_neg hl]
      omega

/-- Witness for the amended C7 at a concrete fetch task, page and
truncation call. -/
theorem claim_c7_witness :
    ResearchAgent.execute_task demoSearchNet bigPageNet fetchTask
      = .fetchResult (some "t1")
          (ContentFetchTool.fetch_multiple bigPageNet ["u"]) "content_fetch" ∧
      (ContentFetchTool.fetch bigPageNet "u").content = some bigText ∧
      (ContentFetchTool.truncate_with_ellipsis "aaaa" 2).length ≤ 5 :=
  ⟨claim_c7_truncation_only_in_extract.1 demoSearchNet bigPageNet fetchTask rfl,
   claim_c7_truncation_only_in_extract.2.1 bigPageNet "u" (some "T") bigText rfl,
   claim_c7_truncation_only_in_extract.2.2 "aaaa" 2⟩

/-! ## T12. Claim C4 (corrected) -/

/-- C4, counterexample: two stored sessions with the same query text (hence
equal Jaccard scores for any probe query).  `find_relevant_history` returns
them in *insertion* order — the earlier-stored `sessA` ranks ahead of the
later-stored `sessB` — whereas the claim demands that the later-stored
session rank ahead on a tie (which would give `[sessB, sessA]`). -/
theorem claim_c4_counterexample :
    demoMgr.find_relevant_history "alpha" 2 = [sessA, sessB] ∧
      sessionSimilarity "alpha" sessA = sessionSimilarity "alpha" sessB ∧
      sessA ≠ sessB := by
  refine ⟨?_, rfl, by decide⟩
  show ((stableSortDesc Prod.fst ([sessA, sessB].map
      (fun s => (sessionSimilarity "alpha" s, s)))).take 2).map Prod.snd
    = [sessA, sessB]
  simp only [List.map_cons, List.map_nil, stableSortDesc, stableInsertDesc]
  rw [if_pos (le_of_eq (show sessionSimilarity "alpha" sessB
    = sessionSimilarity "alpha" sessA from rfl))]
  rfl

/-- C4, as amended: `find_relevant_history` delegates to
`find_similar_queries` (first conjunct), which scores each stored session by
bag-of-words Jaccard similarity between the query and the stored session
query and returns the `top_k` sessions in descending score order, with equal
scores broken by *insertion* order: the earlier-stored session ranks ahead
of the later one. -/
theorem claim_c4_ranked_by_similarity {π ρ : Type} (stm : ShortTermMemory π ρ)
    (query : String) (top_k : Nat) :
    (∀ (Plan : Type) (mm : MemoryManager Plan) (q : String) (k : Nat),
      mm.find_relevant_history q k
        = mm.short_term_memory.find_similar_queries q k) ∧
    ∃ ranked : List (SessionRecord π ρ),
      stm.find_similar_queries query top_k = ranked.take top_k ∧
        ranked.Perm stm.sessions ∧
        ranked.Pairwise (fun a b =>
          sessionSimilarity query b ≤ sessionSimilarity query a) ∧
        ∀ v : ℚ,
          ranked.filter (fun s => decide (sessionSimilarity query s = v))
            = stm.sessions.filter
                (fun s => decide (sessionSimilarity query s = v)) := by
  refine ⟨fun _ _ _ _ => rfl,
    stableSortDesc (sessionSimilarity query) stm.sessions,
    ?_, perm_stableSortDesc _ _, pairwise_stableSortDesc _ _, ?_⟩
  · show ((stableSortDesc Prod.fst (stm.sessions.map
        (fun s => (sessionSimilarity query s, s)))).take top_k).map Prod.snd
      = (stableSortDesc (sessionSimilarity query) stm.sessions).take top_k
    rw [stableSortDesc_map_pair]
    rw [← List.map_take, List.map_map]
    rw [show (Prod.snd ∘ fun s : SessionRecord π ρ =>
      (sessionSimilarity query s, s)) = id from rfl]
    rw [List.map_id]
  · intro v
    exact filter_stableSortDesc (sessionSimilarity query) stm.sessions v

/-! ## T13. Claim C3: workflow error handling -/

theorem plan_node_props {Plan : Type} (o : WorkflowOracles Plan)
    (cfg : ResearchConfig) (st : ResearchState Plan) (mm : MemoryManager Plan) :
    (∀ e mm₂, plan_node o cfg st mm = .error (e, mm₂) → mm₂ = mm) ∧
      ∀ st' mm', plan_node o cfg st mm = .ok (st', mm') →
        st'.error = st.error ∧
          mm'.short_term_memory = mm.short_term_memory := by
  constructor
  · intro e mm₂ h
    dsimp only [plan_node] at h
    split at h
    · simp only [Except.error.injEq, Prod.mk.injEq] at h
      exact h.2.symm
    · simp at h
  · intro st' mm' h
    dsimp only [plan_node] at h
    split at h
    · simp at h
    · simp only [Except.ok.injEq, Prod.mk.injEq] at h
      rw [← h.1, ← h.2]
      constructor
      · rfl
      · split <;> rfl

theorem create_tasks_node_props {Plan : Type} (o : WorkflowOracles Plan)
    (cfg : ResearchConfig) (st : ResearchState Plan) (mm : MemoryManager Plan) :
    (∀ e mm₂, create_tasks_node o cfg st mm = .error (e, mm₂) → mm₂ = mm) ∧
      ∀ st' mm', create_tasks_node o cfg st mm = .ok (st', mm') →
        st'.error = st.error ∧
          mm'.short_term_memory = mm.short_term_memory := by
  constructor
  · intro e mm₂ h
    dsimp only [create_tasks_node] at h
    split at h
    · simp only [Except.error.injEq, Prod.mk.injEq] at h
      exact h.2.symm
    · simp at h
  · intro st' mm' h
    dsimp only [create_tasks_node] at h
    split at h
    · simp at h
    · simp only [Except.ok.injEq, Prod.mk.injEq] at h
      rw [← h.1, ← h.2]
      constructor
      · rfl
      · split <;> rfl

theorem execute_research_node_props {Plan : Type} (o : WorkflowOracles Plan)
    (cfg : ResearchConfig) (st : ResearchState Plan) (mm : MemoryManager Plan) :
    (∀ e mm₂, execute_research_node o cfg st mm = .error (e, mm₂) → mm₂ = mm) ∧
      ∀ st' mm', execute_research_node o cfg st mm = .ok (st', mm') →
        st'.error = st.error ∧
          mm'.short_term_memory = mm.short_term_memory := by
  constructor
  · intro e mm₂ h
    dsimp only [execute_research_node] at h
    split at h
    · simp at h
    · split at h
      · simp only [Except.error.injEq, Prod.mk.injEq] at h
        exact h.2.symm
      · simp at h
  · intro st' mm' h
    dsimp only [execute_research_node] at h
    split at h
    · simp only [Except.ok.injEq, Prod.mk.injEq] at h
      rw [← h.1, ← h.2]
      exact ⟨rfl, rfl⟩
    · split at h
      · simp at h
      · simp only [Except.ok.injEq, Prod.mk.injEq] at h
        rw [← h.1, ← h.2]
        constructor
        · rfl
        · split <;> rfl

theorem update_rag_node_props {Plan : Type} (o : WorkflowOracles Plan)
    (cfg : ResearchConfig) (st : ResearchState Plan) (mm : MemoryManager Plan) :
    (∀ e mm₂, update_rag_node o cfg st mm = .error (e, mm₂) → mm₂ = mm) ∧
      ∀ st' mm', update_rag_node o cfg st mm = .ok (st', mm') →
        st'.error = st.error ∧
          mm'.short_term_memory = mm.short_term_memory := by
  constructor
  · intro e mm₂ h
    dsimp only [update_rag_node] at h
    split at h
    · simp at h
    · split at h
      · simp only [Except.error.injEq, Prod.mk.injEq] at h
        exact h.2.symm
      · split at h
        · simp only [Except.error.injEq, Prod.mk.injEq] at h
          exact h.2.symm
        · simp at h
  · intro st' mm' h
    dsimp only [update_rag_node] at h
    split at h
    · simp only [Except.ok.injEq, Prod.mk.injEq] at h
      rw [← h.1, ← h.2]
      exact ⟨rfl, rfl⟩
    · split at h
      · simp at h
      · split at h
        · simp at h
        · simp only [Except.ok.injEq, Prod.mk.injEq] at h
          rw [← h.1, ← h.2]
          exact ⟨rfl, rfl⟩

theorem generate_report_node_props {Plan : Type} (o : WorkflowOracles Plan)
    (cfg : ResearchConfig) (st : ResearchState Plan) (mm : MemoryManager Plan) :
    (∀ e mm₂, generate_report_node o cfg st mm = .error (e, mm₂) → mm₂ = mm) ∧
      ∀ st' mm', generate_report_node o cfg st mm = .ok (st', mm') →
        st'.error = st.error := by
  constructor
  · intro e mm₂ h
    dsimp only [generate_report_node] at h
    split at h
    · simp only [Except.error.injEq, Prod.mk.injEq] at h
      exact h.2.symm
    · simp at h
  · intro st' mm' h
    dsimp only [generate_report_node] at h
    split at h
    · simp at h
    · simp only [Except.ok.injEq, Prod.mk.injEq] at h
      rw [← h.1]

/-- One superstep: raising preserves the saved sessions; succeeding with a
next node to run (i.e. anywhere except at `END`, which only the report node
reaches) also preserves them, and the state's `error` field is never
written by a node. -/
theorem graph_step_props {Plan : Type} (o : WorkflowOracles Plan)
    (cfg : ResearchConfig) (node : GraphNode) (st : ResearchState Plan)
    (mm : MemoryManager Plan) :
    (∀ e mm₂, graph_step o cfg node st mm = .error (e, mm₂) →
        mm₂.short_term_memory.sessions = mm.short_term_memory.sessions) ∧
      ∀ next st' mm', graph_step o cfg node st mm = .ok (next, st', mm') →
        st'.error = st.error ∧
          (next ≠ none →
            mm'.short_term_memory.sessions = mm.short_term_memory.sessions) := by
  cases node with
  | plan =>
      constructor
      · intro e mm₂ h
        dsimp only [graph_step] at h
        cases hp : plan_node o cfg st mm with
        | error em =>
            rw [hp] at h
            simp only [Except.error.injEq] at h
            rw [h] at hp
            rw [(plan_node_props o cfg st mm).1 e mm₂ hp]
        | ok p =>
            obtain ⟨st1, mm1⟩ := p
            rw [hp] at h
            simp at h
      · intro next st' mm' h
        dsimp only [graph_step] at h
        cases hp : plan_node o cfg st mm with
        | error em =>
            rw [hp] at h
            simp at h
        | ok p =>
            obtain ⟨st1, mm1⟩ := p
            rw [hp] at h
            simp only [Except.ok.injEq, Prod.mk.injEq] at h
            obtain ⟨hf, hm⟩ := (plan_node_props o cfg st mm).2 _ _ hp
            rw [← h.2.1, ← h.2.2]
            exact ⟨hf, fun _ => by rw [hm]⟩
  | create_tasks =>
      constructor
      · intro e mm₂ h
        dsimp only [graph_step] at h
        cases hp : create_tasks_node o cfg st mm with
        | error em =>
            rw [hp] at h
            simp only [Except.error.injEq] at h
            rw [h] at hp
            rw [(create_tasks_node_props o cfg st mm).1 e mm₂ hp]
        | ok p =>
            obtain ⟨st1, mm1⟩ := p
            rw [hp] at h
            simp at h
      · intro next st' mm' h
        dsimp only [graph_step] at h
        cases hp : create_tasks_node o cfg st mm with
        | error em =>
            rw [hp] at h
            simp at h
        | ok p =>
            obtain ⟨st1, mm1⟩ := p
            rw [hp] at h
            simp only [Except.ok.injEq, Prod.mk.injEq] at h
            obtain ⟨hf, hm⟩ := (create_tasks_node_props o cfg st mm).2 _ _ hp
            rw [← h.2.1, ← h.2.2]
            exact ⟨hf, fun _ => by rw [hm]⟩
  | execute_research =>
      constructor
      · intro e mm₂ h
        dsimp only [graph_step] at h
        cases hp : execute_research_node o cfg st mm with
        | error em =>
            rw [hp] at h
            simp only [Except.error.injEq] at h
            rw [h] at hp
            rw [(execute_research_node_props o cfg st mm).1 e mm₂ hp]
        | ok p =>
            obtain ⟨st1, mm1⟩ := p
            rw [hp] at h
            dsimp only at h
            obtain ⟨_, hm⟩ := (execute_research_node_props o cfg st mm).2 _ _ hp
            split at h
            · simp at h
            · simp at h
            · simp at h
            · simp only [Except.error.injEq, Prod.mk.injEq] at h
              rw [← h.2, hm]
      · intro next st' mm' h
        dsimp only [graph_step] at h
        cases hp : execute_research_node o cfg st mm with
        | error em =>
            rw [hp] at h
            simp at h
        | ok p =>
            obtain ⟨st1, mm1⟩ := p
            rw [hp] at h
            dsimp only at h
            obtain ⟨hf, hm⟩ := (execute_research_node_props o cfg st mm).2 _ _ hp
            split at h
            · simp only [Except.ok.injEq, Prod.mk.injEq] at h
              rw [← h.2.1, ← h.2.2]
              exact ⟨hf, fun _ => by rw [hm]⟩
            · simp only [Except.ok.injEq, Prod.mk.injEq] at h
              rw [← h.2.1, ← h.2.2]
              exact ⟨hf, fun _ => by rw [hm]⟩
            · simp only [Except.ok.injEq, Prod.mk.injEq] at h
              rw [← h.2.1, ← h.2.2]
              exact ⟨hf, fun _ => by rw [hm]⟩
            · simp at h
  | update_rag =>
      constructor
      · intro e mm₂ h
        dsimp only [graph_step] at h
        cases hp : update_rag_node o cfg st mm with
        | error em =>
            rw [hp] at h
            simp only [Except.error.injEq] at h
            rw [h] at hp
            rw [(update_rag_node_props o cfg st mm).1 e mm₂ hp]
        | ok p =>
            obtain ⟨st1, mm1⟩ := p
            rw [hp] at h
            simp at h
      · intro next st' mm' h
        dsimp only [graph_step] at h
        cases hp : update_rag_node o cfg st mm with
        | error em =>
            rw [hp] at h
            simp at h
        | ok p =>
            obtain ⟨st1, mm1⟩ := p
            rw [hp] at h
            simp only [Except.ok.injEq, Prod.mk.injEq] at h
            obtain ⟨hf, hm⟩ := (update_rag_node_props o cfg st mm).2 _ _ hp
            rw [← h.2.1, ← h.2.2]
            exact ⟨hf, fun _ => by rw [hm]⟩
  | generate_report =>
      constructor
      · intro e mm₂ h
        dsimp only [graph_step] at h
        cases hp : generate_report_node o cfg st mm with
        | error em =>
            rw [hp] at h
            simp only [Except.error.injEq] at h
            rw [h] at hp
            rw [(generate_report_node_props o cfg st mm).1 e mm₂ hp]
        | ok p =>
            obtain ⟨st1, mm1⟩ := p
            rw [hp] at h
            simp at h
      · intro next st' mm' h
        dsimp only [graph_step] at h
        cases hp : generate_report_node o cfg st mm with
        | error em =>
            rw [hp] at h
            simp at h
        | ok p =>
            obtain ⟨st1, mm1⟩ := p
            rw [hp] at h
            simp only [Except.ok.injEq, Prod.mk.injEq] at h
            refine ⟨?_, fun hne => absurd h.1.symm hne⟩
            rw [← h.2.1]
            exact (generate_report_node_props o cfg st mm).2 _ _ hp

/-- Raising anywhere during a graph run leaves the saved sessions exactly as
they were when the run started. -/
theorem graph_run_error_sessions {Plan : Type} (o : WorkflowOracles Plan)
    (cfg : ResearchConfig) :
    ∀ (fuel : Nat) (node : GraphNode) (st : ResearchState Plan)
      (mm : MemoryManager Plan) (e : String) (mm₂ : MemoryManager Plan),
      graph_run o cfg fuel node st mm = .error (e, mm₂) →
      mm₂.short_term_memory.sessions = mm.short_term_memory.sessions := by
  intro fuel
  induction fuel with
  | zero =>
      intro node st mm e mm₂ h
      simp only [graph_run, Except.error.injEq, Prod.mk.injEq] at h
      rw [h.2]
  | succ fuel ih =>
      intro node st mm e mm₂ h
      rw [graph_run] at h
      cases hs : graph_step o cfg node st mm with
      | error em =>
          rw [hs] at h
          simp only [Except.error.injEq] at h
          rw [h] at hs
          exact (graph_step_props o cfg node st mm).1 e mm₂ hs
      | ok t =>
          obtain ⟨next, st1, mm1⟩ := t
          rw [hs] at h
          cases next with
          | none => simp at h
          | some n =>
              have h1 := ih n st1 mm1 e mm₂ h
              have h2 := ((graph_step_props o cfg node st mm).2 _ _ _ hs).2
                (by simp)
              rw [h1, h2]

/-- A successful graph run never writes the `error` field. -/
theorem graph_run_ok_error_field {Plan : Type} (o : WorkflowOracles Plan)
    (cfg : ResearchConfig) :
    ∀ (fuel : Nat) (node : GraphNode) (st : ResearchState Plan)
      (mm : MemoryManager Plan) (st' : ResearchState Plan)
      (mm' : MemoryManager Plan),
      graph_run o cfg fuel node st mm = .ok (st', mm') →
      st'.error = st.error := by
  intro fuel
  induction fuel with
  | zero =>
      intro node st mm st' mm' h
      simp [graph_run] at h
  | succ fuel ih =>
      intro node st mm st' mm' h
      rw [graph_run] at h
      cases hs : graph_step o cfg node st mm with
      | error em =>
          rw [hs] at h
          simp at h
      | ok t =>
          obtain ⟨next, st1, mm1⟩ := t
          rw [hs] at h
          have hfield := ((graph_step_props o cfg node st mm).2 _ _ _ hs).1
          cases next with
          | none =>
              simp only [Except.ok.injEq, Prod.mk.injEq] at h
              rw [← h.1, hfield]
          | some n =>
              rw [ih n st1 mm1 st' mm' h, hfield]

/-- C3: Whenever any stage of the workflow raises, `run` catches it and
returns a state with `error` set to the exception message and
`completed = true`, the report step has not produced a report
(`report = ""`, its initial value), and no session has been persisted to
short-term memory.  In particular — second conjunct — a failed Plan Stage
call returns exactly `{**initial_state, error, completed: True}` and leaves
the memory manager untouched. -/
theorem claim_c3_error_path_skips_persistence {Plan : Type} :
    (∀ (o : WorkflowOracles Plan) (cfg : ResearchConfig)
        (mm : MemoryManager Plan) (query : String) (st : ResearchState Plan)
        (mm' : MemoryManager Plan) (e : String),
        workflow_run o cfg mm query = (st, mm') → st.error = some e →
        st.completed = true ∧ st.report = "" ∧
          mm'.short_term_memory.sessions = mm.short_term_memory.sessions) ∧
      ∀ (o : WorkflowOracles Plan) (cfg : ResearchConfig)
        (mm : MemoryManager Plan) (query : String) (e : String),
        o.create_plan query
            (if cfg.memory_enabled
              then some (MemoryManager.get_context o.strContent mm)
              else none) = .error e →
        workflow_run o cfg mm query
          = ({ initial_state cfg query with
               error := some e, completed := true }, mm) := by
  constructor
  · intro o cfg mm query st mm' e hrun herr
    unfold workflow_run at hrun
    cases hg : graph_run o cfg RECURSION_LIMIT .plan (initial_state cfg query) mm with
    | ok p =>
        obtain ⟨fs, mmf⟩ := p
        rw [hg] at hrun
        simp only [Prod.mk.injEq] at hrun
        have : fs.error = none :=
          graph_run_ok_error_field o cfg _ _ _ _ _ _ hg
        rw [hrun.1] at this
        rw [this] at herr
        exact absurd herr (by simp)
    | error em =>
        obtain ⟨e1, mm₂⟩ := em
        rw [hg] at hrun
        simp only [Prod.mk.injEq] at hrun
        refine ⟨?_, ?_, ?_⟩
        · rw [← hrun.1]
        · rw [← hrun.1]
          rfl
        · rw [← hrun.2]
          exact graph_run_error_sessions o cfg _ _ _ _ _ _ hg
  · intro o cfg mm query e h
    have hplan : plan_node o cfg (initial_state cfg query) mm
        = .error (e, mm) := by
      dsimp only [plan_node, initial_state]
      rw [h]
    unfold workflow_run
    rw [show RECURSION_LIMIT = 24 + 1 from rfl]
    rw [graph_run]
    dsimp only [graph_step]
    rw [hplan]

/-- Witness for C3: a concrete oracle bundle whose planning call raises
`boom` — the run returns the initial state with the error recorded and
`completed = true`, the report is empty, and the (empty) session store is
unchanged. -/
theorem claim_c3_witness :
    workflow_run failPlanOracles demoCfg demoMM "Q"
      = ({ initial_state demoCfg "Q" with
           error := some "boom", completed := true }, demoMM) ∧
      ({ initial_state demoCfg "Q" with
         error := some "boom", completed := true } :
            ResearchState Unit).completed = true ∧
      ({ initial_state demoCfg "Q" with
         error := some "boom", completed := true } :
            ResearchState Unit).report = "" ∧
      demoMM.short_term_memory.sessions = demoMM.short_term_memory.sessions := by
  have h2 := claim_c3_error_path_skips_persistence.2 failPlanOracles demoCfg
    demoMM "Q" "boom" rfl
  have h1 := claim_c3_error_path_skips_persistence.1 failPlanOracles demoCfg
    demoMM "Q" _ _ "boom" h2 rfl
  exact ⟨h2, h1.1, h1.2.1, h1.2.2⟩

end AgenticResearch
